import Mathlib

/-!
# Verification of the fs-mcp filesystem tool layer

A shallow embedding of `src/fs-spec.js` / `fs.mcp.js` (the "robust,
alias-friendly FS wrapper" variant, whose executors are identical to the
`fs-spec.js` ones and whose parameter shapes additionally accept the
`"utf-8"` encoding alias).  The JavaScript code exposes six filesystem
tools (`ls`, `readFile`, `writeFile`, `mkdir`, `rename`, `rm`), each of
which first funnels every caller-supplied path through the `safe` helper
and then performs one Node `fs.promises` call.

The embedding models:
* `path.resolve` / `String.prototype.startsWith` and the `safe` helper
  (POSIX semantics; `ROOT` is an explicit parameter instead of the
  module-level constant read from `process.env`),
* Node `Buffer` UTF-8 and base64 codecs (`Buffer.from(data, enc)` /
  `buf.toString(enc)`),
* the relevant `fs.promises` operations over an explicit filesystem tree
  (`FNode`), with Node's errno codes as strings,
* the executors of the tools the claims are about, in explicit
  state-passing style (`state in → (result, state out)`), where a thrown
  JavaScript exception / rejected promise is `Except.error`,
* the zod parameter schema for the `encoding` field.
-/

/-- An error thrown by the JavaScript code (a rejected promise).
`pathEscape` is `Error('Path escapes project root')` thrown by `safe`;
`fsError c` is a Node system error whose `code` is `c` (e.g. `"ENOENT"`);
`zodInvalid` is a zod validation failure (the registry rejects the raw
arguments before the executor runs). -/
inductive JsError where
  | pathEscape
  | fsError (code : String)
  | zodInvalid
deriving DecidableEq

/-! ## Paths: `path.resolve` and `safe`

`path.resolve(ROOT, rel)` joins `rel` onto `ROOT` (unless `rel` is
absolute) and canonicalizes: splits on `/`, drops empty and `.` segments,
lets `..` pop the previous segment (staying at `/` when there is none),
and produces an absolute path with no trailing separator.  POSIX
semantics, as on the platform the repository targets. -/

/-- Split a character list on `'/'` into raw (possibly empty) chunks. -/
def collectSegs (cs : List Char) : List (List Char) :=
  cs.foldr (fun c acc =>
    if c = '/' then [] :: acc
    else match acc with
      | s :: rest => (c :: s) :: rest
      | [] => [[c]]) [[]]

/-- The non-empty `/`-separated segments of a path string. -/
def splitSegs (s : String) : List String :=
  ((collectSegs s.data).filter (fun l => !l.isEmpty)).map (fun l => ⟨l⟩)

/-- Resolve `.` and `..` segments against an absolute origin: `..` pops
the last segment and is a no-op at the root, `.` is dropped. -/
def normSegs (segs : List String) : List String :=
  segs.foldl (fun acc seg =>
    if seg = "." then acc
    else if seg = ".." then acc.dropLast
    else acc ++ [seg]) []

/-- Rebuild an absolute path string from canonical segments. -/
def absOfSegs (segs : List String) : String :=
  "/" ++ String.intercalate "/" segs

/-- `path.resolve(root, rel)` (POSIX): `rel` wins if absolute, otherwise
it is joined onto `root`; the result is canonical and absolute.  `root`
is itself assumed canonical (in the source it is
`path.resolve(process.env.FS_ROOT ?? process.cwd())`). -/
def resolvePath (root rel : String) : String :=
  absOfSegs (normSegs (splitSegs (if rel.data.head? = some '/' then rel else root ++ "/" ++ rel)))

/-- JavaScript `s.startsWith(pre)`: `pre` is a prefix of `s` (code-unit
prefix; for the ASCII paths involved this coincides with character
prefix). -/
def jsStartsWith (s pre : String) : Bool :=
  pre.data.isPrefixOf s.data

/-- The `safe` helper:
```js
const safe = (rel) => {
  const abs = path.resolve(ROOT, rel);
  if (!abs.startsWith(ROOT)) throw new Error('Path escapes project root');
  return abs;
};
```
Note the check is a plain `startsWith(ROOT)`, not
`abs == ROOT || abs.startsWith(ROOT + '/')`. -/
def safe (root rel : String) : Except JsError String :=
  let abs := resolvePath root rel
  if jsStartsWith abs root then .ok abs else .error .pathEscape

/-! ## Bytes: Node `Buffer` UTF-8 codec

`Buffer.from(data, 'utf8')` encodes the (well-formed) JavaScript string
as UTF-8; `buf.toString('utf8')` decodes, emitting U+FFFD for malformed
sequences.  JavaScript strings are modelled as Lean `String`s, i.e. as
sequences of Unicode scalar values; lone UTF-16 surrogates (which Node
would also replace by U+FFFD) are outside the model. -/

/-- UTF-8 encoding of one scalar value (what `Buffer.from(-, 'utf8')`
writes for one code point). -/
def utf8EncodeChar (c : Char) : List Nat :=
  if c.toNat < 0x80 then [c.toNat]
  else if c.toNat < 0x800 then
    [0xC0 + c.toNat / 64, 0x80 + c.toNat % 64]
  else if c.toNat < 0x10000 then
    [0xE0 + c.toNat / 4096, 0x80 + c.toNat / 64 % 64, 0x80 + c.toNat % 64]
  else
    [0xF0 + c.toNat / 262144, 0x80 + c.toNat / 4096 % 64, 0x80 + c.toNat / 64 % 64,
      0x80 + c.toNat % 64]

/-- UTF-8 encoding of a character list. -/
def utf8EncodeList : List Char → List Nat
  | [] => []
  | c :: cs => utf8EncodeChar c ++ utf8EncodeList cs

/-- Encoding of a whole string, `Buffer.from(data, 'utf8')`. -/
def utf8Encode (s : String) : List Nat :=
  utf8EncodeList s.data

/-- The replacement character U+FFFD emitted for malformed input. -/
def replChar : Char := Char.ofNat 0xFFFD

/-- UTF-8 decoding (`buf.toString('utf8')`), one step per byte or
well-formed sequence.  Well-formed sequences (with the overlong,
surrogate and out-of-range bounds on the second byte) decode to their
scalar value; a malformed byte produces U+FFFD and decoding resumes at
the byte that broke the sequence; a truncated final sequence produces a
single U+FFFD.  The `fuel` argument only makes the recursion structural:
every step consumes at least one byte, so `fuel = length` (as
`utf8DecodeList` passes) never runs out. -/
def utf8DecodeAux : Nat → List Nat → List Char
  | 0, _ => []
  | _ + 1, [] => []
  | fuel + 1, b0 :: rest =>
    if b0 < 0x80 then Char.ofNat b0 :: utf8DecodeAux fuel rest
    else if b0 < 0xC2 then replChar :: utf8DecodeAux fuel rest
    else if b0 < 0xE0 then
      match rest with
      | b1 :: rest1 =>
        if 0x80 ≤ b1 ∧ b1 < 0xC0 then
          Char.ofNat ((b0 - 0xC0) * 64 + (b1 - 0x80)) :: utf8DecodeAux fuel rest1
        else replChar :: utf8DecodeAux fuel rest
      | [] => [replChar]
    else if b0 < 0xF0 then
      match rest with
      | b1 :: rest1 =>
        if 0x80 ≤ b1 ∧ b1 < 0xC0 ∧ (b0 = 0xE0 → 0xA0 ≤ b1) ∧ (b0 = 0xED → b1 < 0xA0) then
          match rest1 with
          | b2 :: rest2 =>
            if 0x80 ≤ b2 ∧ b2 < 0xC0 then
              Char.ofNat ((b0 - 0xE0) * 4096 + (b1 - 0x80) * 64 + (b2 - 0x80)) ::
                utf8DecodeAux fuel rest2
            else replChar :: utf8DecodeAux fuel rest1
          | [] => [replChar]
        else replChar :: utf8DecodeAux fuel rest
      | [] => [replChar]
    else if b0 < 0xF5 then
      match rest with
      | b1 :: rest1 =>
        if 0x80 ≤ b1 ∧ b1 < 0xC0 ∧ (b0 = 0xF0 → 0x90 ≤ b1) ∧ (b0 = 0xF4 → b1 < 0x90) then
          match rest1 with
          | b2 :: rest2 =>
            if 0x80 ≤ b2 ∧ b2 < 0xC0 then
              match rest2 with
              | b3 :: rest3 =>
                if 0x80 ≤ b3 ∧ b3 < 0xC0 then
                  Char.ofNat ((b0 - 0xF0) * 262144 + (b1 - 0x80) * 4096 +
                    (b2 - 0x80) * 64 + (b3 - 0x80)) :: utf8DecodeAux fuel rest3
                else replChar :: utf8DecodeAux fuel rest2
              | [] => [replChar]
            else replChar :: utf8DecodeAux fuel rest1
          | [] => [replChar]
        else replChar :: utf8DecodeAux fuel rest
      | [] => [replChar]
    else replChar :: utf8DecodeAux fuel rest

/-- UTF-8 decoding of a byte list. -/
def utf8DecodeList (bs : List Nat) : List Char :=
  utf8DecodeAux bs.length bs

/-- Decoding of a buffer to a string, `buf.toString('utf8')`. -/
def utf8DecodeString (bs : List Nat) : String :=
  ⟨utf8DecodeList bs⟩

/-! ## Bytes: Node `Buffer` base64 codec

`buf.toString('base64')` emits canonical base64 (standard alphabet, `=`
padding, no line breaks).  `Buffer.from(data, 'base64')` is lenient
about characters outside the alphabet: it accepts the URL-safe alphabet
as well and silently skips the rest while scanning — except for the
padding character `=`, at which decoding stops altogether: the bytes
completed before it are kept and everything after the first `=` is
dropped (so `'=bad'` decodes to no bytes).  A lone trailing sextet is
dropped. -/

/-- The base64 digit for a sextet value (standard alphabet). -/
def b64Char (k : Nat) : Char :=
  if k < 26 then Char.ofNat (65 + k)
  else if k < 52 then Char.ofNat (97 + (k - 26))
  else if k < 62 then Char.ofNat (48 + (k - 52))
  else if k = 62 then '+'
  else '/'

/-- The sextet value of a character, `none` for characters outside the
base64 alphabet (which the Node decoder skips while scanning — except
`=`, at which it stops: see `base64DecodeString`).  `-` and `_` are the
URL-safe spellings of 62 and 63, which Node also accepts. -/
def b64Val (c : Char) : Option Nat :=
  if 'A' ≤ c ∧ c ≤ 'Z' then some (c.toNat - 65)
  else if 'a' ≤ c ∧ c ≤ 'z' then some (c.toNat - 97 + 26)
  else if '0' ≤ c ∧ c ≤ '9' then some (c.toNat - 48 + 52)
  else if c = '+' ∨ c = '-' then some 62
  else if c = '/' ∨ c = '_' then some 63
  else none

/-- Base64 encoding, three input bytes to four digits, with `=` padding
for a short final group. -/
def encodeChunks : List Nat → List Char
  | b0 :: b1 :: b2 :: rest =>
    b64Char (b0 / 4) :: b64Char (b0 % 4 * 16 + b1 / 16) ::
      b64Char (b1 % 16 * 4 + b2 / 64) :: b64Char (b2 % 64) :: encodeChunks rest
  | [b0, b1] => [b64Char (b0 / 4), b64Char (b0 % 4 * 16 + b1 / 16), b64Char (b1 % 16 * 4), '=']
  | [b0] => [b64Char (b0 / 4), b64Char (b0 % 4 * 16), '=', '=']
  | [] => []

/-- Base64 rendering of a buffer, `buf.toString('base64')`. -/
def base64Encode (bs : List Nat) : String :=
  ⟨encodeChunks bs⟩

/-- Repack a list of sextet values into bytes: four sextets give three
bytes, a short final group of three (resp. two) sextets gives two (resp.
one) bytes, a lone trailing sextet is dropped. -/
def packSextets : List Nat → List Nat
  | s0 :: s1 :: s2 :: s3 :: rest =>
    (s0 * 4 + s1 / 16) :: (s1 % 16 * 16 + s2 / 4) :: (s2 % 4 * 64 + s3) :: packSextets rest
  | [s0, s1, s2] => [s0 * 4 + s1 / 16, s1 % 16 * 16 + s2 / 4]
  | [s0, s1] => [s0 * 4 + s1 / 16]
  | _ => []

/-- Lenient base64 decoding, `Buffer.from(data, 'base64')`: scan up to
the first `'='`, which aborts decoding (everything after it is dropped),
skip the remaining characters outside the alphabet, and repack the
sextets. -/
def base64DecodeString (s : String) : List Nat :=
  packSextets ((s.data.takeWhile (fun c => c != '=')).filterMap b64Val)

/-! ## The filesystem

The real filesystem state the `fs.promises` calls act on, as a tree
rooted at `/`.  Files carry their byte content, directories an
association list of children in enumeration order; both carry
`mtimeMs` (an integral millisecond timestamp; the fractional part of
Node's float is not modelled, no claim depends on it).  Mutating
operations take the current clock value `now` as an explicit parameter,
standing for the ambient OS clock. -/

/-- A node of the filesystem tree. -/
inductive FNode where
  | file (content : List Nat) (mtimeMs : Nat)
  | dir (children : List (String × FNode)) (mtimeMs : Nat)

/-- Directory entry lookup by name. -/
def findChild : List (String × FNode) → String → Option FNode
  | [], _ => none
  | (n, node) :: rest, name => if n = name then some node else findChild rest name

/-- Replace the entry `name` (or append it) in a child list. -/
def setChild : List (String × FNode) → String → FNode → List (String × FNode)
  | [], name, node => [(name, node)]
  | (n, x) :: rest, name, node =>
    if n = name then (n, node) :: rest else (n, x) :: setChild rest name node

/-- Drop the entry `name` from a child list. -/
def removeChild : List (String × FNode) → String → List (String × FNode)
  | [], _ => []
  | (n, x) :: rest, name => if n = name then rest else (n, x) :: removeChild rest name

/-- Walk a segment path down the tree. -/
def lookupNode : FNode → List String → Option FNode
  | node, [] => some node
  | .file .., _ :: _ => none
  | .dir cs _, s :: rest =>
    match findChild cs s with
    | some c => lookupNode c rest
    | none => none

/-- Split off the last element of a list. -/
def splitLast : List α → Option (List α × α)
  | [] => none
  | [a] => some ([], a)
  | a :: rest => (splitLast rest).map (fun p => (a :: p.1, p.2))

/-- Run `f` on the child list of the directory at `segs`, rebuilding the
tree around the result.  `ENOENT` if a component is missing, `ENOTDIR`
if a component is a file. -/
def withDirAt (node : FNode) (segs : List String)
    (f : List (String × FNode) → Except JsError (List (String × FNode))) :
    Except JsError FNode :=
  match node, segs with
  | .dir cs m, [] => (f cs).map (fun cs' => .dir cs' m)
  | .file .., [] => .error (.fsError "ENOTDIR")
  | .file .., _ :: _ => .error (.fsError "ENOTDIR")
  | .dir cs m, s :: rest =>
    match findChild cs s with
    | none => .error (.fsError "ENOENT")
    | some c => (withDirAt c rest f).map (fun c' => .dir (setChild cs s c') m)

/-- The fields of a Node `Stats` object that `statEntry` reads. -/
structure Stats where
  isFile : Bool
  isDirectory : Bool
  size : Nat
  mtimeMs : Nat
deriving DecidableEq

/-- The `Stats` of a node.  A directory's `size` is filesystem-dependent
in reality; it is modelled as 0 (no claim depends on its value). -/
def statOf : FNode → Stats
  | .file content m => ⟨true, false, content.length, m⟩
  | .dir _ m => ⟨false, true, 0, m⟩

/-- Model of `fs.stat(abs)`: `ENOENT` when nothing is at the path (a path whose
middle component is a file reports `ENOTDIR` in Node; the model folds
that case into `ENOENT`, no claim distinguishes them). -/
def fsStat (fs : FNode) (abs : String) : Except JsError Stats :=
  match lookupNode fs (splitSegs abs) with
  | some n => .ok (statOf n)
  | none => .error (.fsError "ENOENT")

/-- Model of `fs.readdir(abs)`, returning the children (name and node) in
enumeration order; the real call returns only the names, which `ls` then
stats one by one — since the model has no concurrent mutation, pairing
each name with its node at once is equivalent. -/
def fsReaddir (fs : FNode) (abs : String) : Except JsError (List (String × FNode)) :=
  match lookupNode fs (splitSegs abs) with
  | some (.dir cs _) => .ok cs
  | some (.file _ _) => .error (.fsError "ENOTDIR")
  | none => .error (.fsError "ENOENT")

/-- Model of `fs.readFile(abs)`: the raw bytes of a file, `EISDIR` on a
directory, `ENOENT` otherwise. -/
def fsReadFile (fs : FNode) (abs : String) : Except JsError (List Nat) :=
  match lookupNode fs (splitSegs abs) with
  | some (.file content _) => .ok content
  | some (.dir _ _) => .error (.fsError "EISDIR")
  | none => .error (.fsError "ENOENT")

/-- Model of `fs.writeFile(abs, buf, { flag: append ? 'a' : 'w' })`: the parent
directory must already exist (`ENOENT`/`ENOTDIR` otherwise); flag `'w'`
truncates and replaces, `'a'` appends, and either creates a missing
file; `EISDIR` when the target is a directory. -/
def fsWriteFile (fs : FNode) (abs : String) (buf : List Nat) (append : Bool) (now : Nat) :
    Except JsError FNode :=
  match splitLast (splitSegs abs) with
  | none => .error (.fsError "EISDIR")
  | some (parent, name) =>
    withDirAt fs parent (fun cs =>
      match findChild cs name with
      | some (.dir _ _) => .error (.fsError "EISDIR")
      | some (.file old _) =>
        .ok (setChild cs name (.file (if append then old ++ buf else buf) now))
      | none => .ok (setChild cs name (.file buf now)))

/-- Model of `fs.mkdir(abs, { recursive: true })`: create every missing component
as a directory, succeed silently when the target already is one;
`EEXIST` when the target is a file, `ENOTDIR` when a middle component
is. -/
def mkdirRec (node : FNode) (segs : List String) (now : Nat) : Except JsError FNode :=
  match node, segs with
  | .dir .., [] => .ok node
  | .file .., [] => .error (.fsError "EEXIST")
  | .file .., _ :: _ => .error (.fsError "ENOTDIR")
  | .dir cs m, s :: rest =>
    match findChild cs s with
    | some c => (mkdirRec c rest now).map (fun c' => .dir (setChild cs s c') m)
    | none => (mkdirRec (.dir [] now) rest now).map (fun c' => .dir (setChild cs s c') m)

/-- Model of `fs.mkdir(abs, { recursive: false })`: `EEXIST` when anything is
already at the path (also for `/` itself), `ENOENT` when the parent is
missing. -/
def mkdirNonrec (fs : FNode) (abs : String) (now : Nat) : Except JsError FNode :=
  match splitLast (splitSegs abs) with
  | none => .error (.fsError "EEXIST")
  | some (parent, name) =>
    withDirAt fs parent (fun cs =>
      match findChild cs name with
      | some _ => .error (.fsError "EEXIST")
      | none => .ok (setChild cs name (.dir [] now)))

/-- Dispatch on the `recursive` flag of `fs.mkdir(abs, { recursive })`. -/
def fsMkdir (fs : FNode) (abs : String) (recursive : Bool) (now : Nat) :
    Except JsError FNode :=
  if recursive then mkdirRec fs (splitSegs abs) now else mkdirNonrec fs abs now

/-- Detach the node at `segs` (file or whole directory subtree).
Removing `/` itself is refused (`EPERM`, as in Node). -/
def removeAt (node : FNode) (segs : List String) : Except JsError FNode :=
  match node, segs with
  | _, [] => .error (.fsError "EPERM")
  | .file .., _ :: _ => .error (.fsError "ENOTDIR")
  | .dir cs m, [s] => .ok (.dir (removeChild cs s) m)
  | .dir cs m, s :: rest =>
    match findChild cs s with
    | none => .error (.fsError "ENOENT")
    | some c => (removeAt c rest).map (fun c' => .dir (setChild cs s c') m)

/-- Model of `fs.rm(abs, { recursive, force: true })`: `force` makes a missing
target a no-op; a directory is refused outright when `recursive` is
false — Node throws its is-a-directory error (`ERR_FS_EISDIR`, errno
`EISDIR`) even for an *empty* directory, it does not check emptiness
(`ENOTEMPTY` never arises on this code path). -/
def fsRm (fs : FNode) (abs : String) (recursive : Bool) : Except JsError FNode :=
  match lookupNode fs (splitSegs abs) with
  | none => .ok fs
  | some (.file _ _) => removeAt fs (splitSegs abs)
  | some (.dir _ _) =>
    if recursive then removeAt fs (splitSegs abs) else .error (.fsError "EISDIR")

/-- Model of `fs.unlink(abs)`: delete a file; `EISDIR` on a directory,
`ENOENT` when missing. -/
def fsUnlink (fs : FNode) (abs : String) : Except JsError FNode :=
  match lookupNode fs (splitSegs abs) with
  | some (.file _ _) => removeAt fs (splitSegs abs)
  | some (.dir _ _) => .error (.fsError "EISDIR")
  | none => .error (.fsError "ENOENT")

/-! ## Entries and the result envelope -/

/-- The object `statEntry` builds for one directory entry.  Field names
as in the source: `name`, `type`, `size`, `mtimeMs`. -/
structure Entry where
  name : String
  type : String
  size : Nat
  mtimeMs : Nat
deriving DecidableEq

/-- The body of `statEntry` after the `fs.stat` call:
```js
{ name: path.basename(abs),
  type: s.isFile() ? 'file' : s.isDirectory() ? 'dir' : 'other',
  size: s.size, mtimeMs: s.mtimeMs }
```
`ls` calls it on `path.join(abs, n)` for a child name `n`, whose
basename is `n` itself. -/
def mkEntry (name : String) (s : Stats) : Entry :=
  ⟨name, if s.isFile then "file" else if s.isDirectory then "dir" else "other",
    s.size, s.mtimeMs⟩

/-- A hexadecimal digit (lowercase), for JSON control-character
escapes. -/
def hexDigit (k : Nat) : Char :=
  if k < 10 then Char.ofNat (48 + k) else Char.ofNat (87 + k)

/-- The JSON escape of one character (`JSON.stringify` string rules). -/
def jsonEscapeChar (c : Char) : List Char :=
  if c = '"' then ['\\', '"']
  else if c = '\\' then ['\\', '\\']
  else if c = '\n' then ['\\', 'n']
  else if c = '\r' then ['\\', 'r']
  else if c = '\t' then ['\\', 't']
  else if c.toNat = 8 then ['\\', 'b']
  else if c.toNat = 12 then ['\\', 'f']
  else if c.toNat < 32 then ['\\', 'u', '0', '0', hexDigit (c.toNat / 16), hexDigit (c.toNat % 16)]
  else [c]

/-- A JSON string literal. -/
def jsonString (s : String) : String :=
  "\"" ++ ⟨s.data.foldr (fun c acc => jsonEscapeChar c ++ acc) []⟩ ++ "\""

/-- Serialization `JSON.stringify(entry, null, 2)` of one entry, as it
appears nested at depth one inside the array. -/
def jsonOfEntry (e : Entry) : String :=
  "\x7b\n    \"name\": " ++ jsonString e.name ++ ",\n    \"type\": " ++ jsonString e.type ++
    ",\n    \"size\": " ++ toString e.size ++ ",\n    \"mtimeMs\": " ++ toString e.mtimeMs ++
    "\n  \x7d"

/-- Serialization `JSON.stringify(detailed, null, 2)` of the entry array. -/
def jsonOfEntries (es : List Entry) : String :=
  match es with
  | [] => "[]"
  | _ => "[\n  " ++ String.intercalate ",\n  " (es.map jsonOfEntry) ++ "\n]"

/-- One item of the envelope's `content` array. -/
structure ContentItem where
  type : String
  text : String
deriving DecidableEq

/-- The result envelope built by `asResult`:
`{ content: [{ type: 'text', text }] }`. -/
structure Envelope where
  content : List ContentItem
deriving DecidableEq

/-- Envelope `asResult(x)` for a string payload (`typeof x === 'string'`):
passed through verbatim. -/
def asResultStr (s : String) : Envelope :=
  ⟨[⟨"text", s⟩]⟩

/-- Envelope `asResult(x)` for the entry list (the non-string branch):
`JSON.stringify(x, null, 2)`. -/
def asResultEntries (es : List Entry) : Envelope :=
  ⟨[⟨"text", jsonOfEntries es⟩]⟩

/-! ## The executors

Each executor is embedded in state-passing style: it receives the
filesystem tree and returns its own outcome (a success envelope, or the
error it throws / the rejection it propagates — the source has no
`try`/`catch`) together with the resulting tree.  `root` stands for the
module constant `ROOT`, and `now` for the OS clock at the write. -/

/-- The entry list `ls` assembles before wrapping: `fs.readdir`, then
`statEntry` per child. -/
def lsEntriesOf (fs : FNode) (abs : String) : Except JsError (List Entry) :=
  (fsReaddir fs abs).map (fun cs => cs.map (fun p => mkEntry p.1 (statOf p.2)))

/-- The `ls` executor. -/
def lsRun (root rel : String) (fs : FNode) : Except JsError Envelope × FNode :=
  match safe root rel with
  | .error e => (.error e, fs)
  | .ok abs =>
    match lsEntriesOf fs abs with
    | .error e => (.error e, fs)
    | .ok es => (.ok (asResultEntries es), fs)

/-- The `readFile` executor. -/
def readFileRun (root rel encoding : String) (fs : FNode) : Except JsError Envelope × FNode :=
  match safe root rel with
  | .error e => (.error e, fs)
  | .ok abs =>
    match fsReadFile fs abs with
    | .error e => (.error e, fs)
    | .ok buf =>
      (.ok (asResultStr (if encoding = "utf8" then utf8DecodeString buf else base64Encode buf)),
        fs)

/-- The `writeFile` executor.  `data` is decoded per `encoding` into a
buffer, then written with flag `'a'` or `'w'`. -/
def writeFileRun (root rel data encoding : String) (append : Bool) (now : Nat) (fs : FNode) :
    Except JsError Envelope × FNode :=
  let buf := if encoding = "utf8" then utf8Encode data else base64DecodeString data
  match safe root rel with
  | .error e => (.error e, fs)
  | .ok abs =>
    match fsWriteFile fs abs buf append now with
    | .error e => (.error e, fs)
    | .ok fs' => (.ok (asResultStr "ok"), fs')

/-- The `mkdir` executor. -/
def mkdirRun (root rel : String) (recursive : Bool) (now : Nat) (fs : FNode) :
    Except JsError Envelope × FNode :=
  match safe root rel with
  | .error e => (.error e, fs)
  | .ok abs =>
    match fsMkdir fs abs recursive now with
    | .error e => (.error e, fs)
    | .ok fs' => (.ok (asResultStr "ok"), fs')

/-- The `rm` executor: `fs.stat`, then `fs.rm` (directories) or
`fs.unlink` (anything else). -/
def rmRun (root rel : String) (recursive : Bool) (fs : FNode) :
    Except JsError Envelope × FNode :=
  match safe root rel with
  | .error e => (.error e, fs)
  | .ok abs =>
    match fsStat fs abs with
    | .error e => (.error e, fs)
    | .ok s =>
      match (if s.isDirectory then fsRm fs abs recursive else fsUnlink fs abs) with
      | .error e => (.error e, fs)
      | .ok fs' => (.ok (asResultStr "ok"), fs')

/-! ## The zod `encoding` schema

`fs.mcp.js` declares
```js
const Encoding = z.enum(['utf8', 'utf-8', 'base64'])
  .transform((e) => (e === 'utf-8' ? 'utf8' : e)).default('utf8');
```
wrapped in `.optional()` in the `Read`/`Write` shapes.  `.optional()`
passes `undefined` through (the executor's destructuring default then
makes it `'utf8'`); a present value must be one of the three literals,
and `'utf-8'` is rewritten to `'utf8'`. -/

/-- Parsing the raw `encoding` argument through the schema. -/
def zEncodingParse : Option String → Except JsError (Option String)
  | none => .ok none
  | some e =>
    if e = "utf8" ∨ e = "utf-8" ∨ e = "base64" then
      .ok (some (if e = "utf-8" then "utf8" else e))
    else .error .zodInvalid

/-- The executor-side destructuring default `encoding = 'utf8'`. -/
def encodingOrDefault : Option String → String
  | none => "utf8"
  | some e => e

/-- Invocation of `readFile` through the registry: validate `encoding`,
then run the executor. -/
def readFileCall (root rel : String) (rawEncoding : Option String) (fs : FNode) :
    Except JsError Envelope × FNode :=
  match zEncodingParse rawEncoding with
  | .error e => (.error e, fs)
  | .ok enc => readFileRun root rel (encodingOrDefault enc) fs

/-- Invocation of `writeFile` through the registry.  The `data` field is
`z.string().default('')`: any string is accepted unchanged, so it is
already the typed `data` here. -/
def writeFileCall (root rel data : String) (rawEncoding : Option String) (append : Bool)
    (now : Nat) (fs : FNode) : Except JsError Envelope × FNode :=
  match zEncodingParse rawEncoding with
  | .error e => (.error e, fs)
  | .ok enc => writeFileRun root rel data (encodingOrDefault enc) append now fs

/-! ## Fixtures

Concrete filesystem trees used by the closed theorems below. -/

/-- A tree in which the configured Root `/a/b` has a sibling `/a/bc`
holding a secret file. -/
def escapeFs : FNode :=
  .dir [("a", .dir [("b", .dir [] 0),
                    ("bc", .dir [("secret.txt", .file (utf8Encode "top") 1)] 0)] 0)] 0

/-- A tree in which the Root `/r` holds a non-empty directory `d`. -/
def nonEmptyDirFs : FNode :=
  .dir [("r", .dir [("d", .dir [("x.txt", .file [104] 1)] 2)] 0)] 0

/-- A tree holding just the empty Root `/r`. -/
def rootFs : FNode := .dir [("r", .dir [] 0)] 0

/-- The tree `rootFs` becomes by writing "hi" (utf8) to `/r/f.txt`. -/
def wroteUtf8Fs : FNode := .dir [("r", .dir [("f.txt", .file (utf8Encode "hi") 7)] 0)] 0

/-- The tree `rootFs` becomes by writing bytes 0 and 255 to `/r/g.bin`. -/
def wroteB64Fs : FNode := .dir [("r", .dir [("g.bin", .file [0, 255] 7)] 0)] 0

/-- The tree `rootFs` becomes by `mkdir -p` of `/r/a/b` at clock 3. -/
def madeDirFs : FNode := .dir [("r", .dir [("a", .dir [("b", .dir [] 3)] 3)] 0)] 0

/-! ## Round-trip and filesystem lemmas -/

/-- Decoding one ASCII byte. -/
theorem utf8DecodeAux_one (fuel n : Nat) (rest : List Nat) (h1 : n < 0x80) :
    utf8DecodeAux (fuel + 1) (n :: rest) = Char.ofNat n :: utf8DecodeAux fuel rest := by
  simp only [utf8DecodeAux]
  rw [if_pos h1]

/-- Decoding a well-formed two-byte sequence. -/
theorem utf8DecodeAux_two (fuel n : Nat) (rest : List Nat) (h1 : 0x80 ≤ n) (h2 : n < 0x800) :
    utf8DecodeAux (fuel + 1) ((0xC0 + n / 64) :: (0x80 + n % 64) :: rest) =
      Char.ofNat n :: utf8DecodeAux fuel rest := by
  simp only [utf8DecodeAux]
  rw [if_neg (by omega), if_neg (by omega), if_pos (by omega), if_pos (by omega)]
  have h : (0xC0 + n / 64 - 0xC0) * 64 + (0x80 + n % 64 - 0x80) = n := by omega
  rw [h]

/-- Decoding a well-formed three-byte sequence (the range bounds rule out
overlongs and surrogates). -/
theorem utf8DecodeAux_three (fuel n : Nat) (rest : List Nat)
    (h1 : 0x800 ≤ n) (h2 : n < 0x10000) (h3 : n < 0xD800 ∨ 0xE000 ≤ n) :
    utf8DecodeAux (fuel + 1)
        ((0xE0 + n / 4096) :: (0x80 + n / 64 % 64) :: (0x80 + n % 64) :: rest) =
      Char.ofNat n :: utf8DecodeAux fuel rest := by
  simp only [utf8DecodeAux]
  rw [if_neg (by omega), if_neg (by omega), if_neg (by omega), if_pos (by omega),
    if_pos (by omega), if_pos (by omega)]
  have h : (0xE0 + n / 4096 - 0xE0) * 4096 + (0x80 + n / 64 % 64 - 0x80) * 64 +
      (0x80 + n % 64 - 0x80) = n := by omega
  rw [h]

/-- Decoding a well-formed four-byte sequence. -/
theorem utf8DecodeAux_four (fuel n : Nat) (rest : List Nat)
    (h1 : 0x10000 ≤ n) (h2 : n < 0x110000) :
    utf8DecodeAux (fuel + 1)
        ((0xF0 + n / 262144) :: (0x80 + n / 4096 % 64) :: (0x80 + n / 64 % 64) ::
          (0x80 + n % 64) :: rest) =
      Char.ofNat n :: utf8DecodeAux fuel rest := by
  simp only [utf8DecodeAux]
  rw [if_neg (by omega), if_neg (by omega), if_neg (by omega), if_neg (by omega),
    if_pos (by omega), if_pos (by omega), if_pos (by omega), if_pos (by omega)]
  have h : (0xF0 + n / 262144 - 0xF0) * 262144 + (0x80 + n / 4096 % 64 - 0x80) * 4096 +
      (0x80 + n / 64 % 64 - 0x80) * 64 + (0x80 + n % 64 - 0x80) = n := by omega
  rw [h]

/-- The decoder consumes the encoding of one scalar value in a single step and
emits exactly that character, whatever follows. -/
theorem utf8DecodeAux_encodeChar (c : Char) (fuel : Nat) (rest : List Nat) :
    utf8DecodeAux (fuel + 1) (utf8EncodeChar c ++ rest) = c :: utf8DecodeAux fuel rest := by
  have hvalid : c.toNat < 0xD800 ∨ (0xE000 ≤ c.toNat ∧ c.toNat < 0x110000) := by
    have he : c.toNat = c.val.toNat := rfl
    rcases c.valid with h | ⟨ha, hb⟩
    · exact Or.inl (by omega)
    · exact Or.inr ⟨by omega, by omega⟩
  by_cases h1 : c.toNat < 0x80
  · rw [utf8EncodeChar, if_pos h1]
    simp only [List.cons_append, List.nil_append]
    rw [utf8DecodeAux_one fuel _ rest h1, Char.ofNat_toNat]
  · by_cases h2 : c.toNat < 0x800
    · rw [utf8EncodeChar, if_neg h1, if_pos h2]
      simp only [List.cons_append, List.nil_append]
      rw [utf8DecodeAux_two fuel _ rest (by omega) h2, Char.ofNat_toNat]
    · by_cases h3 : c.toNat < 0x10000
      · rw [utf8EncodeChar, if_neg h1, if_neg h2, if_pos h3]
        simp only [List.cons_append, List.nil_append]
        rw [utf8DecodeAux_three fuel _ rest (by omega) h3 (by omega), Char.ofNat_toNat]
      · rw [utf8EncodeChar, if_neg h1, if_neg h2, if_neg h3]
        simp only [List.cons_append, List.nil_append]
        rw [utf8DecodeAux_four fuel _ rest (by omega) (by omega), Char.ofNat_toNat]

/-- Decoding an encoded character list recovers it, for any sufficient fuel. -/
theorem utf8DecodeAux_encodeList (l : List Char) (fuel : Nat)
    (h : (utf8EncodeList l).length ≤ fuel) :
    utf8DecodeAux fuel (utf8EncodeList l) = l := by
  induction l generalizing fuel with
  | nil =>
    cases fuel <;> rfl
  | cons c cs ih =>
    have hlen : 1 ≤ (utf8EncodeChar c).length := by
      rw [utf8EncodeChar]
      split
      · simp
      · split
        · simp
        · split <;> simp
    rw [utf8EncodeList] at h ⊢
    have hfuel : ∃ fuel', fuel = fuel' + 1 := by
      refine ⟨fuel - 1, ?_⟩
      simp [List.length_append] at h
      omega
    obtain ⟨fuel', rfl⟩ := hfuel
    rw [utf8DecodeAux_encodeChar]
    rw [ih fuel' (by simp [List.length_append] at h; omega)]

/-- Node round-trip: `buf.toString('utf8')` of `Buffer.from(s, 'utf8')` is `s`
again, for every (well-formed) string. -/
theorem utf8_roundtrip (s : String) : utf8DecodeString (utf8Encode s) = s := by
  rw [utf8DecodeString, utf8DecodeList, utf8Encode, utf8DecodeAux_encodeList _ _ (le_refl _)]

/-- One kept element of a `filterMap`. -/
theorem filterMap_cons_val (f : α → Option β) (a : α) (b : β) (l : List α)
    (h : f a = some b) : List.filterMap f (a :: l) = b :: List.filterMap f l := by
  simp [List.filterMap_cons, h]

/-- One skipped element of a `filterMap`. -/
theorem filterMap_cons_skip (f : α → Option β) (a : α) (l : List α)
    (h : f a = none) : List.filterMap f (a :: l) = List.filterMap f l := by
  simp [List.filterMap_cons, h]

/-- The base64 digit table and its reverse are inverse on sextet values. -/
theorem b64Val_b64Char : ∀ k < 64, b64Val (b64Char k) = some k := by decide

/-- The padding character maps to no sextet. -/
theorem b64Val_pad : b64Val '=' = none := by decide

/-- A base64 digit is never the padding character, so the scan keeps it. -/
theorem b64Char_ne_pad : ∀ k < 64, (b64Char k != '=') = true := by decide

/-- Keeping one element of a `takeWhile`. -/
theorem takeWhile_cons_keep (p : α → Bool) (a : α) (l : List α) (h : p a = true) :
    List.takeWhile p (a :: l) = a :: List.takeWhile p l := by
  simp [List.takeWhile, h]

/-- Stopping a `takeWhile`. -/
theorem takeWhile_cons_stop (p : α → Bool) (a : α) (l : List α) (h : p a = false) :
    List.takeWhile p (a :: l) = [] := by
  simp [List.takeWhile, h]

/-- A `takeWhile` passes over a block it keeps pointwise. -/
theorem takeWhile_append_of_all (p : α → Bool) (l rest : List α)
    (h : ∀ a ∈ l, p a = true) :
    List.takeWhile p (l ++ rest) = l ++ List.takeWhile p rest := by
  induction l with
  | nil => simp
  | cons a l ih =>
    have ha := h a (by simp)
    rw [List.cons_append, takeWhile_cons_keep _ _ _ ha, List.cons_append,
      ih (fun b hb => h b (by simp [hb]))]

/-- The scan keeps a base64 digit. -/
theorem takeWhile_pad_keep (k : Nat) (hk : k < 64) (l : List Char) :
    List.takeWhile (fun c => c != '=') (b64Char k :: l) =
      b64Char k :: List.takeWhile (fun c => c != '=') l :=
  takeWhile_cons_keep _ _ _ (b64Char_ne_pad _ hk)

/-- The scan stops at the padding character. -/
theorem takeWhile_pad_stop (l : List Char) :
    List.takeWhile (fun c => c != '=') ('=' :: l) = [] :=
  takeWhile_cons_stop _ _ _ (by decide)

/-- Repacking the sextets of an encoded byte list — scanned up to the
trailing padding, which stops the scan — recovers the bytes. -/
theorem packSextets_encodeChunks :
    ∀ bs : List Nat, (∀ b ∈ bs, b < 256) →
      packSextets (List.filterMap b64Val
        ((encodeChunks bs).takeWhile (fun c => c != '='))) = bs
  | [], _ => rfl
  | [b0], h => by
    have hb0 : b0 < 256 := h b0 (by simp)
    simp only [encodeChunks]
    rw [takeWhile_pad_keep _ (by omega), takeWhile_pad_keep _ (by omega),
      takeWhile_pad_stop]
    rw [filterMap_cons_val _ _ _ _ (b64Val_b64Char _ (by omega)),
      filterMap_cons_val _ _ _ _ (b64Val_b64Char _ (by omega)),
      List.filterMap_nil]
    simp only [packSextets]
    congr 1
    omega
  | [b0, b1], h => by
    have hb0 : b0 < 256 := h b0 (by simp)
    have hb1 : b1 < 256 := h b1 (by simp)
    simp only [encodeChunks]
    rw [takeWhile_pad_keep _ (by omega), takeWhile_pad_keep _ (by omega),
      takeWhile_pad_keep _ (by omega), takeWhile_pad_stop]
    rw [filterMap_cons_val _ _ _ _ (b64Val_b64Char _ (by omega)),
      filterMap_cons_val _ _ _ _ (b64Val_b64Char _ (by omega)),
      filterMap_cons_val _ _ _ _ (b64Val_b64Char _ (by omega)),
      List.filterMap_nil]
    simp only [packSextets]
    congr 1
    · omega
    · congr 1
      omega
  | b0 :: b1 :: b2 :: rest, h => by
    have hb0 : b0 < 256 := h b0 (by simp)
    have hb1 : b1 < 256 := h b1 (by simp)
    have hb2 : b2 < 256 := h b2 (by simp)
    simp only [encodeChunks]
    rw [takeWhile_pad_keep _ (by omega), takeWhile_pad_keep _ (by omega),
      takeWhile_pad_keep _ (by omega), takeWhile_pad_keep _ (by omega)]
    rw [filterMap_cons_val _ _ _ _ (b64Val_b64Char _ (by omega)),
      filterMap_cons_val _ _ _ _ (b64Val_b64Char _ (by omega)),
      filterMap_cons_val _ _ _ _ (b64Val_b64Char _ (by omega)),
      filterMap_cons_val _ _ _ _ (b64Val_b64Char _ (by omega))]
    simp only [packSextets]
    have ht := packSextets_encodeChunks rest (fun b hb => h b (by simp [hb]))
    rw [ht]
    congr 1
    · omega
    · congr 1
      · omega
      · congr 1
        omega

/-- Node round-trip: `Buffer.from(b64, 'base64')` of `buf.toString('base64')`
recovers the buffer. -/
theorem base64_roundtrip (bs : List Nat) (h : ∀ b ∈ bs, b < 256) :
    base64DecodeString (base64Encode bs) = bs := by
  rw [base64DecodeString, base64Encode]
  exact packSextets_encodeChunks bs h

/-- Inversion of `Except.map` on a success. -/
theorem exceptMap_ok {ε α β : Type} {g : α → β} {e : Except ε α} {y : β}
    (h : Except.map g e = .ok y) : ∃ x, e = .ok x ∧ y = g x := by
  cases e with
  | error e0 => simp [Except.map] at h
  | ok x => exact ⟨x, rfl, by simpa [Except.map] using h.symm⟩

/-- Looking up the entry just set finds it. -/
theorem findChild_setChild (cs : List (String × FNode)) (name : String) (nd : FNode) :
    findChild (setChild cs name nd) name = some nd := by
  induction cs with
  | nil => simp [setChild, findChild]
  | cons p rest ih =>
    obtain ⟨n, x⟩ := p
    by_cases hn : n = name
    · simp [setChild, hn, findChild]
    · simp [setChild, hn, findChild, ih]

/-- Setting the same entry twice keeps only the second value. -/
theorem setChild_setChild (cs : List (String × FNode)) (name : String) (a b : FNode) :
    setChild (setChild cs name a) name b = setChild cs name b := by
  induction cs with
  | nil => simp [setChild]
  | cons p rest ih =>
    obtain ⟨n, x⟩ := p
    by_cases hn : n = name
    · simp [setChild, hn]
    · simp [setChild, hn, ih]

/-- Inversion of `splitLast`. -/
theorem splitLast_append : ∀ (l p : List α) (x : α), splitLast l = some (p, x) → l = p ++ [x]
  | [], p, x, h => by simp [splitLast] at h
  | [a], p, x, h => by
    simp [splitLast] at h
    simp [← h.1, ← h.2]
  | a :: b :: rest, p, x, h => by
    simp only [splitLast] at h
    cases hs : splitLast (b :: rest) with
    | none => rw [hs] at h; simp at h
    | some q =>
      rw [hs] at h
      have hq := splitLast_append (b :: rest) q.1 q.2 (by rw [hs])
      simp at h
      obtain ⟨h1, h2⟩ := h
      subst h1
      subst h2
      simp [hq]

/-- Walking a concatenation of segment paths is walking them in turn. -/
theorem lookupNode_append (node : FNode) (p q : List String) :
    lookupNode node (p ++ q) = (lookupNode node p).bind (fun n => lookupNode n q) := by
  induction p generalizing node with
  | nil => simp [lookupNode]
  | cons s rest ih =>
    cases node with
    | file content m => simp [lookupNode]
    | dir cs m =>
      simp only [List.cons_append, lookupNode]
      cases findChild cs s with
      | none => simp
      | some c => simp [ih c]

/-- Inversion of a successful `withDirAt`: the path led to a directory, `f`
rewrote its children, and in the result the same path leads to the rewritten
children, everything else untouched. -/
theorem withDirAt_ok : ∀ (p : List String) (fs fs' : FNode)
    (f : List (String × FNode) → Except JsError (List (String × FNode))),
    withDirAt fs p f = .ok fs' →
    ∃ cs cs' m, lookupNode fs p = some (.dir cs m) ∧ f cs = .ok cs' ∧
      lookupNode fs' p = some (.dir cs' m)
  | [], fs, fs', f, h => by
    cases fs with
    | file c m => simp [withDirAt] at h
    | dir cs m =>
      simp only [withDirAt] at h
      obtain ⟨cs', hf, rfl⟩ := exceptMap_ok h
      exact ⟨cs, cs', m, rfl, hf, rfl⟩
  | s :: rest, fs, fs', f, h => by
    cases fs with
    | file c m => simp [withDirAt] at h
    | dir cs m =>
      simp only [withDirAt] at h
      split at h
      · simp at h
      · next c hc =>
        obtain ⟨c', hrec, rfl⟩ := exceptMap_ok h
        obtain ⟨cs0, cs0', m0, hl1, hf, hl2⟩ := withDirAt_ok rest c c' f hrec
        refine ⟨cs0, cs0', m0, ?_, hf, ?_⟩
        · simp only [lookupNode]
          rw [hc]
          exact hl1
        · simp only [lookupNode]
          rw [findChild_setChild]
          exact hl2

/-- When the path leads to a directory on whose children `f` fails, `withDirAt`
fails the same way. -/
theorem withDirAt_error_of_lookup : ∀ (p : List String) (fs : FNode)
    (cs : List (String × FNode)) (m : Nat)
    (f : List (String × FNode) → Except JsError (List (String × FNode))) (e : JsError),
    lookupNode fs p = some (.dir cs m) → f cs = .error e → withDirAt fs p f = .error e
  | [], fs, cs, m, f, e, hl, hf => by
    simp only [lookupNode, Option.some_inj] at hl
    subst hl
    simp [withDirAt, hf, Except.map]
  | s :: rest, fs, cs, m, f, e, hl, hf => by
    cases fs with
    | file c mm => simp [lookupNode] at hl
    | dir cs1 m1 =>
      simp only [lookupNode] at hl
      split at hl
      · next c hc =>
        have hrec := withDirAt_error_of_lookup rest c cs m f e hl hf
        simp only [withDirAt]
        split
        · next hn => rw [hc] at hn; cases hn
        · next c2 hc2 =>
          rw [hc] at hc2
          cases hc2
          rw [hrec]
          rfl
      · simp at hl

/-- An error of `withDirAt` is a missing or non-directory component, or an error
of `f` itself. -/
theorem withDirAt_error_cases : ∀ (p : List String) (fs : FNode)
    (f : List (String × FNode) → Except JsError (List (String × FNode))) (e : JsError),
    withDirAt fs p f = .error e →
    e = .fsError "ENOENT" ∨ e = .fsError "ENOTDIR" ∨ ∃ cs, f cs = .error e
  | [], fs, f, e, h => by
    cases fs with
    | file c m =>
      simp only [withDirAt, Except.error.injEq] at h
      exact Or.inr (Or.inl h.symm)
    | dir cs m =>
      simp only [withDirAt] at h
      cases hf : f cs with
      | error e0 =>
        rw [hf] at h
        simp only [Except.map, Except.error.injEq] at h
        exact Or.inr (Or.inr ⟨cs, by rw [hf, h]⟩)
      | ok cs' => rw [hf] at h; simp [Except.map] at h
  | s :: rest, fs, f, e, h => by
    cases fs with
    | file c m =>
      simp only [withDirAt, Except.error.injEq] at h
      exact Or.inr (Or.inl h.symm)
    | dir cs m =>
      simp only [withDirAt] at h
      split at h
      · simp only [Except.error.injEq] at h
        exact Or.inl h.symm
      · next c hc =>
        cases hrec : withDirAt c rest f with
        | error e0 =>
          rw [hrec] at h
          simp only [Except.map, Except.error.injEq] at h
          exact h ▸ withDirAt_error_cases rest c f e0 hrec
        | ok c' => rw [hrec] at h; simp [Except.map] at h

/-- Extending a walk that reached a directory by one segment is a child lookup. -/
theorem lookupNode_child (fs : FNode) (parent : List String) (name : String)
    (cs : List (String × FNode)) (m : Nat) (h : lookupNode fs parent = some (.dir cs m)) :
    lookupNode fs (parent ++ [name]) = findChild cs name := by
  rw [lookupNode_append, h]
  show lookupNode (.dir cs m) [name] = findChild cs name
  simp only [lookupNode]
  cases findChild cs name <;> rfl

/-- A successful walk passes through every intermediate node. -/
theorem lookupNode_append_some (fs : FNode) (p q : List String) (node : FNode)
    (h : lookupNode fs (p ++ q) = some node) :
    ∃ mid, lookupNode fs p = some mid ∧ lookupNode mid q = some node := by
  rw [lookupNode_append] at h
  cases hp : lookupNode fs p with
  | none => rw [hp] at h; simp at h
  | some mid => rw [hp] at h; exact ⟨mid, rfl, by simpa using h⟩

/-- A one-segment walk that succeeds starts at a directory and finds a child. -/
theorem lookupNode_single (mid : FNode) (name : String) (node : FNode)
    (h : lookupNode mid [name] = some node) :
    ∃ cs m, mid = .dir cs m ∧ findChild cs name = some node := by
  cases mid with
  | file c mm => simp [lookupNode] at h
  | dir cs mm =>
    refine ⟨cs, mm, rfl, ?_⟩
    simp only [lookupNode] at h
    split at h
    · next c hc =>
      simp only [lookupNode, Option.some_inj] at h
      rw [hc, h]
    · simp at h

/-- Reading a path at which a file sits returns its content. -/
theorem fsReadFile_of_lookup_file (fs : FNode) (abs : String) (content : List Nat) (m : Nat)
    (h : lookupNode fs (splitSegs abs) = some (.file content m)) :
    fsReadFile fs abs = .ok content := by
  simp [fsReadFile, h]

/-- Reading back a path just written (overwrite mode) returns exactly the buffer
written. -/
theorem fsReadFile_fsWriteFile (fs : FNode) (abs : String) (buf : List Nat) (now : Nat)
    (fs' : FNode) (h : fsWriteFile fs abs buf false now = .ok fs') :
    fsReadFile fs' abs = .ok buf := by
  rw [fsWriteFile] at h
  cases hs : splitLast (splitSegs abs) with
  | none => rw [hs] at h; exact absurd h (by simp)
  | some pr =>
    obtain ⟨parent, name⟩ := pr
    rw [hs] at h
    obtain ⟨cs, cs', m, hlk, hf, hlk'⟩ := withDirAt_ok _ _ _ _ h
    have hsegs : splitSegs abs = parent ++ [name] := splitLast_append _ _ _ hs
    have hcs' : findChild cs' name = some (.file buf now) := by
      split at hf
      · simp at hf
      · simp only [Except.ok.injEq] at hf
        rw [← hf]
        simp [findChild_setChild]
      · simp only [Except.ok.injEq] at hf
        rw [← hf]
        simp [findChild_setChild]
    have hlook : lookupNode fs' (splitSegs abs) = some (.file buf now) := by
      rw [hsegs, lookupNode_child fs' parent name cs' m hlk', hcs']
    exact fsReadFile_of_lookup_file fs' abs buf now hlook

/-- Recursive `mkdir` is idempotent: running it again on its own result succeeds
and changes nothing, whatever the clock now reads. -/
theorem mkdirRec_idem : ∀ (segs : List String) (now1 now2 : Nat) (fs fs' : FNode),
    mkdirRec fs segs now1 = .ok fs' → mkdirRec fs' segs now2 = .ok fs'
  | [], now1, now2, fs, fs', h => by
    cases fs with
    | file c m => simp [mkdirRec] at h
    | dir cs m =>
      simp only [mkdirRec, Except.ok.injEq] at h
      rw [← h]
      simp [mkdirRec]
  | s :: rest, now1, now2, fs, fs', h => by
    cases fs with
    | file c m => simp [mkdirRec] at h
    | dir cs m =>
      simp only [mkdirRec] at h
      split at h
      · next c hc =>
        obtain ⟨c', hrec, rfl⟩ := exceptMap_ok h
        have hrec2 := mkdirRec_idem rest now1 now2 c c' hrec
        simp [mkdirRec, findChild_setChild, hrec2, Except.map, setChild_setChild]
      · next hc =>
        obtain ⟨c', hrec, rfl⟩ := exceptMap_ok h
        have hrec2 := mkdirRec_idem rest now1 now2 _ c' hrec
        simp [mkdirRec, findChild_setChild, hrec2, Except.map, setChild_setChild]

/-- Non-recursive `mkdir` fails with `EEXIST` whenever anything already sits at
the path. -/
theorem mkdirNonrec_exists (fs : FNode) (abs : String) (now : Nat) (node : FNode)
    (h : lookupNode fs (splitSegs abs) = some node) :
    mkdirNonrec fs abs now = .error (.fsError "EEXIST") := by
  cases hs : splitLast (splitSegs abs) with
  | none => simp [mkdirNonrec, hs]
  | some pr =>
    obtain ⟨parent, name⟩ := pr
    have hsegs : splitSegs abs = parent ++ [name] := splitLast_append _ _ _ hs
    rw [hsegs] at h
    obtain ⟨mid, hp, hq⟩ := lookupNode_append_some fs parent [name] node h
    obtain ⟨cs, m, rfl, hfc⟩ := lookupNode_single mid name node hq
    simp only [mkdirNonrec]
    rw [hs]
    exact withDirAt_error_of_lookup parent fs cs m _ _ hp (by simp [hfc])

/-- The filesystem write can fail, but never with a validation error. -/
theorem fsWriteFile_not_zod (fs : FNode) (abs : String) (buf : List Nat) (ap : Bool)
    (now : Nat) : fsWriteFile fs abs buf ap now ≠ .error .zodInvalid := by
  rw [fsWriteFile]
  cases hs : splitLast (splitSegs abs) with
  | none => simp
  | some pr =>
    obtain ⟨parent, name⟩ := pr
    intro h
    rcases withDirAt_error_cases parent fs _ _ h with h1 | h1 | ⟨cs, hf⟩
    · cases h1
    · cases h1
    · split at hf
      · cases hf
      · cases hf
      · cases hf

/-- The only error `safe` throws is the path-escape one. -/
theorem safe_error (root rel : String) (e : JsError) (h : safe root rel = .error e) :
    e = .pathEscape := by
  simp only [safe] at h
  split at h
  · cases h
  · cases h
    rfl

/-- C1: the claim says `safe` returns only Root itself or a path with `Root +
'/'` as a prefix, rejecting a sibling of Root whose name merely has Root as
a string prefix.  The code checks `abs.startsWith(ROOT)` with no separator,
so with Root `/a/b` the relative path `../bc` resolves to the sibling
`/a/bc` and is accepted although it is neither Root nor below it: the
claimed invariant fails on the code. -/
theorem C1_safe_accepts_sibling :
    safe "/a/b" "../bc" = .ok "/a/bc" ∧ "/a/bc" ≠ "/a/b" ∧
    jsStartsWith "/a/bc" ("/a/b" ++ "/") = false :=
  ⟨rfl, by decide, by decide⟩

/-- C2: the claim says `readFile` fails with `PathEscape` for every path whose
canonical form lies outside Root.  With Root `/a/b`, the path
`../bc/secret.txt` canonicalizes to `/a/bc/secret.txt` — outside Root, as
the last two conjuncts show — yet `readFile` succeeds and returns the
content of the sibling's file, because the bare `startsWith` check of `safe`
accepts it. -/
theorem C2_readFile_reads_outside_root :
    readFileRun "/a/b" "../bc/secret.txt" "utf8" escapeFs =
      (.ok (asResultStr "top"), escapeFs) ∧
    resolvePath "/a/b" "../bc/secret.txt" = "/a/bc/secret.txt" ∧
    "/a/bc/secret.txt" ≠ "/a/b" ∧
    jsStartsWith "/a/bc/secret.txt" ("/a/b" ++ "/") = false :=
  ⟨rfl, rfl, by decide, by decide⟩

/-- C5: the claim says `rm` on a non-empty directory with recursive false fails
with `NotEmpty` (errno `ENOTEMPTY`).  The code calls Node's `fs.rm`, which
refuses any directory when `recursive` is false with its is-a-directory
error (errno `EISDIR`, thrown as `ERR_FS_EISDIR`) without ever checking
emptiness, so the failure is not the claimed kind — though the state is
indeed left unchanged. -/
theorem C5_counterexample :
    rmRun "/r" "d" false nonEmptyDirFs = (.error (.fsError "EISDIR"), nonEmptyDirFs) ∧
    JsError.fsError "EISDIR" ≠ JsError.fsError "ENOTEMPTY" :=
  ⟨rfl, by decide⟩

/-- C5 (amended): `rm` with recursive false on a directory — in particular a
non-empty one — fails with the is-a-directory error of `fs.rm` and leaves
the filesystem, the directory and all of its contents, completely unchanged. -/
theorem C5_amended_rm_nonrecursive_dir (root rel : String) (fs : FNode) (abs : String)
    (cs : List (String × FNode)) (m : Nat)
    (hsafe : safe root rel = .ok abs)
    (hlk : lookupNode fs (splitSegs abs) = some (.dir cs m))
    (hne : cs ≠ []) :
    rmRun root rel false fs = (.error (.fsError "EISDIR"), fs) := by
  simp [rmRun, fsStat, fsRm, statOf, hsafe, hlk]

/-- Witness for C5 (amended): removing the non-empty directory `/r/d` without
the recursive flag fails and leaves the tree as it was. -/
theorem C5_amended_witness :
    rmRun "/r" "d" false nonEmptyDirFs = (.error (.fsError "EISDIR"), nonEmptyDirFs) :=
  C5_amended_rm_nonrecursive_dir "/r" "d" nonEmptyDirFs "/r/d"
    [("x.txt", .file [104] 1)] 2 rfl rfl (List.cons_ne_nil _ _)

/-- C7: the claim says an entry's type is drawn from the set containing "file",
"directory" and "other", a directory child being reported as "directory".
`statEntry` actually emits the string "dir" for directories: listing a
directory child yields type "dir", which is none of the three claimed
values. -/
theorem C7_counterexample :
    lsEntriesOf nonEmptyDirFs "/r" = .ok [⟨"d", "dir", 0, 2⟩] ∧
    ¬("dir" = "file" ∨ "dir" = "directory" ∨ "dir" = "other") :=
  ⟨rfl, by decide⟩

/-- C7 (amended): every entry produced by the list operation has the shape of
`Entry` — name, type, size and mtimeMs — with type drawn from "file", "dir"
and "other"; a directory child is reported with type "dir", a file child
with type "file" and size equal to its byte count. -/
theorem C7_amended_entry_shape :
    (∀ (fs : FNode) (abs : String) (es : List Entry), lsEntriesOf fs abs = .ok es →
      ∀ e ∈ es, e.type = "file" ∨ e.type = "dir" ∨ e.type = "other") ∧
    (∀ (name : String) (cs : List (String × FNode)) (m : Nat),
      (mkEntry name (statOf (.dir cs m))).type = "dir") ∧
    (∀ (name : String) (content : List Nat) (m : Nat),
      (mkEntry name (statOf (.file content m))).type = "file" ∧
      (mkEntry name (statOf (.file content m))).size = content.length) := by
  refine ⟨?_, fun name cs m => rfl, fun name content m => ⟨rfl, rfl⟩⟩
  intro fs abs es h e he
  simp only [lsEntriesOf] at h
  obtain ⟨cs, hrd, rfl⟩ := exceptMap_ok h
  simp only [List.mem_map] at he
  obtain ⟨p, hp, rfl⟩ := he
  cases hnode : p.2 with
  | file content m => simp [mkEntry, statOf, hnode]
  | dir children m => simp [mkEntry, statOf, hnode]

/-- Witness for C7 (amended): the entry that listing `/r` of the fixture
produces for the directory child `d`, and the type `statEntry` gives a
directory. -/
theorem C7_amended_witness :
    ((⟨"d", "dir", 0, 2⟩ : Entry).type = "file" ∨ (⟨"d", "dir", 0, 2⟩ : Entry).type = "dir" ∨
      (⟨"d", "dir", 0, 2⟩ : Entry).type = "other") ∧
    (mkEntry "sub" (statOf (.dir [] 5))).type = "dir" :=
  ⟨C7_amended_entry_shape.1 nonEmptyDirFs "/r" [⟨"d", "dir", 0, 2⟩] rfl _ (by simp),
   C7_amended_entry_shape.2.1 "sub" [] 5⟩

/-- C8: a raw encoding argument "utf-8" passes validation (it is not rejected as
invalid), is normalized to the canonical "utf8" by the zod transform, and
the resulting readFile and writeFile calls behave identically to the same
calls made with "utf8" — in particular it is never read as base64. -/
theorem C8_utf8_alias_normalized :
    zEncodingParse (some "utf-8") = .ok (some "utf8") ∧
    (∀ (root rel : String) (fs : FNode),
      readFileCall root rel (some "utf-8") fs = readFileCall root rel (some "utf8") fs) ∧
    (∀ (root rel data : String) (append : Bool) (now : Nat) (fs : FNode),
      writeFileCall root rel data (some "utf-8") append now fs =
        writeFileCall root rel data (some "utf8") append now fs) :=
  ⟨rfl, fun _ _ _ => rfl, fun _ _ _ _ _ _ => rfl⟩

/-- C10: `readFile` and `ls` leave the filesystem state unchanged — whether the
call succeeds or fails, the state-passing executors return the input tree
untouched, so neither operation creates, modifies or deletes any file or
directory. -/
theorem C10_read_ls_leave_state_unchanged (root rel enc : String) (fs : FNode) :
    (readFileRun root rel enc fs).2 = fs ∧ (lsRun root rel fs).2 = fs := by
  constructor
  · simp only [readFileRun]
    split
    · rfl
    · split <;> rfl
  · simp only [lsRun]
    split
    · rfl
    · split <;> rfl

/-- C3: the claim says every error is caught at the executor boundary and
converted into the envelope's failure form, nothing escaping to the caller.
At a path escape (`readFile`) and at a missing target (`rm`) the executor's
result is the raw thrown error (`Except.error`), not an envelope of any
shape: the source has no `try`/`catch` and `asResult` builds success
envelopes only. -/
theorem C3_counterexample :
    (readFileRun "/a/b" "../outside.txt" "utf8" escapeFs).1 = .error .pathEscape ∧
    (readFileRun "/a/b" "../outside.txt" "utf8" escapeFs).1.isOk = false ∧
    (rmRun "/a/b" "nope.txt" false escapeFs).1 = .error (.fsError "ENOENT") ∧
    (rmRun "/a/b" "nope.txt" false escapeFs).1.isOk = false :=
  ⟨rfl, rfl, rfl, rfl⟩

/-- C3 (amended): executors wrap only successful payloads in the result
envelope; every error — the path escape thrown by `safe` or a filesystem
failure — propagates out of the executor verbatim as a thrown exception /
rejected promise.  Shown for the cited `readFile` and `rm` executors at each
fallible step. -/
theorem C3_amended_errors_escape_raw :
    (∀ (root rel enc : String) (fs : FNode) (e : JsError), safe root rel = .error e →
      readFileRun root rel enc fs = (.error e, fs)) ∧
    (∀ (root rel enc : String) (fs : FNode) (abs : String) (e : JsError),
      safe root rel = .ok abs → fsReadFile fs abs = .error e →
      readFileRun root rel enc fs = (.error e, fs)) ∧
    (∀ (root rel : String) (recursive : Bool) (fs : FNode) (e : JsError),
      safe root rel = .error e → rmRun root rel recursive fs = (.error e, fs)) ∧
    (∀ (root rel : String) (recursive : Bool) (fs : FNode) (abs : String) (e : JsError),
      safe root rel = .ok abs → fsStat fs abs = .error e →
      rmRun root rel recursive fs = (.error e, fs)) := by
  refine ⟨?_, ?_, ?_, ?_⟩
  · intro root rel enc fs e h
    simp [readFileRun, h]
  · intro root rel enc fs abs e h1 h2
    simp [readFileRun, h1, h2]
  · intro root rel recursive fs e h
    simp [rmRun, h]
  · intro root rel recursive fs abs e h1 h2
    simp [rmRun, h1, h2]

/-- Witness for C3 (amended) at concrete inputs: a path escape in `readFile` and
a missing target in `rm` each surface as the raw error. -/
theorem C3_amended_witness :
    readFileRun "/a/b" "../x.txt" "utf8" escapeFs = (.error .pathEscape, escapeFs) ∧
    rmRun "/a/b" "gone.txt" false escapeFs = (.error (.fsError "ENOENT"), escapeFs) :=
  ⟨C3_amended_errors_escape_raw.1 "/a/b" "../x.txt" "utf8" escapeFs .pathEscape rfl,
   C3_amended_errors_escape_raw.2.2.2 "/a/b" "gone.txt" false escapeFs "/a/b/gone.txt"
     (.fsError "ENOENT") rfl rfl⟩

/-- C4: writing `data` with encoding utf8 (append false) and reading the same
path back with encoding utf8 returns exactly `data`; writing the base64
rendering of a byte sequence with encoding base64 and reading back with
base64 returns exactly that base64 string. -/
theorem C4_write_read_roundtrip :
    (∀ (root rel data : String) (now : Nat) (fs : FNode) (env : Envelope) (fs' : FNode),
      writeFileRun root rel data "utf8" false now fs = (.ok env, fs') →
      readFileRun root rel "utf8" fs' = (.ok (asResultStr data), fs')) ∧
    (∀ (root rel : String) (bytes : List Nat) (now : Nat) (fs : FNode) (env : Envelope)
      (fs' : FNode), (∀ b ∈ bytes, b < 256) →
      writeFileRun root rel (base64Encode bytes) "base64" false now fs = (.ok env, fs') →
      readFileRun root rel "base64" fs' =
        (.ok (asResultStr (base64Encode bytes)), fs')) := by
  constructor
  · intro root rel data now fs env fs' h
    simp only [writeFileRun] at h
    rw [if_pos trivial] at h
    split at h
    · simp at h
    · next abs hsafe =>
      split at h
      · simp at h
      · next fs0 hw =>
        simp only [Prod.mk.injEq, Except.ok.injEq] at h
        obtain ⟨henv, hfs⟩ := h
        subst hfs
        have hread := fsReadFile_fsWriteFile fs abs (utf8Encode data) now fs0 hw
        simp [readFileRun, hsafe, hread, utf8_roundtrip]
  · intro root rel bytes now fs env fs' hb h
    simp only [writeFileRun] at h
    rw [if_neg (by decide)] at h
    rw [base64_roundtrip bytes hb] at h
    split at h
    · simp at h
    · next abs hsafe =>
      split at h
      · simp at h
      · next fs0 hw =>
        simp only [Prod.mk.injEq, Except.ok.injEq] at h
        obtain ⟨henv, hfs⟩ := h
        subst hfs
        have hread := fsReadFile_fsWriteFile fs abs bytes now fs0 hw
        simp [readFileRun, hsafe, hread]

/-- Witness for C4: concrete round-trips through `/r/f.txt` (utf8, "hi") and
`/r/g.bin` (base64, bytes 0 and 255). -/
theorem C4_write_read_roundtrip_witness :
    readFileRun "/r" "f.txt" "utf8" wroteUtf8Fs = (.ok (asResultStr "hi"), wroteUtf8Fs) ∧
    readFileRun "/r" "g.bin" "base64" wroteB64Fs =
      (.ok (asResultStr (base64Encode [0, 255])), wroteB64Fs) :=
  ⟨C4_write_read_roundtrip.1 "/r" "f.txt" "hi" 7 rootFs (asResultStr "ok") wroteUtf8Fs rfl,
   C4_write_read_roundtrip.2 "/r" "g.bin" [0, 255] 7 rootFs (asResultStr "ok") wroteB64Fs
     (by decide) rfl⟩

/-- C6: `mkdir` with recursive true is idempotent — after a successful call,
repeating it succeeds with the identical envelope and the identical on-disk
tree, whatever the clock reads; and `mkdir` with recursive false on a path
that already exists as a directory fails with `AlreadyExists` (errno
`EEXIST`) and changes nothing. -/
theorem C6_mkdir_idempotent_and_exclusive :
    (∀ (root rel : String) (now1 now2 : Nat) (fs : FNode) (env : Envelope) (fs' : FNode),
      mkdirRun root rel true now1 fs = (.ok env, fs') →
      mkdirRun root rel true now2 fs' = (.ok env, fs')) ∧
    (∀ (root rel : String) (now : Nat) (fs : FNode) (abs : String)
      (cs : List (String × FNode)) (m : Nat),
      safe root rel = .ok abs → lookupNode fs (splitSegs abs) = some (.dir cs m) →
      mkdirRun root rel false now fs = (.error (.fsError "EEXIST"), fs)) := by
  constructor
  · intro root rel now1 now2 fs env fs' h
    simp only [mkdirRun] at h
    split at h
    · simp at h
    · next abs hsafe =>
      rw [show fsMkdir fs abs true now1 = mkdirRec fs (splitSegs abs) now1 from rfl] at h
      split at h
      · simp at h
      · next fs0 hmk =>
        simp only [Prod.mk.injEq, Except.ok.injEq] at h
        obtain ⟨henv, hfs⟩ := h
        subst hfs
        have hmk2 := mkdirRec_idem _ now1 now2 fs fs0 hmk
        simp [mkdirRun, hsafe, fsMkdir, hmk2, henv]
  · intro root rel now fs abs cs m hsafe hlk
    have hex := mkdirNonrec_exists fs abs now (.dir cs m) hlk
    simp [mkdirRun, hsafe, fsMkdir, hex]

/-- Witness for C6: repeating `mkdir -p` of `/r/a/b` on its own result, and non-
recursive `mkdir` of the existing `/r/a`. -/
theorem C6_mkdir_witness :
    mkdirRun "/r" "a/b" true 9 madeDirFs = (.ok (asResultStr "ok"), madeDirFs) ∧
    mkdirRun "/r" "a" false 9 madeDirFs = (.error (.fsError "EEXIST"), madeDirFs) :=
  ⟨C6_mkdir_idempotent_and_exclusive.1 "/r" "a/b" 3 9 rootFs (asResultStr "ok") madeDirFs rfl,
   C6_mkdir_idempotent_and_exclusive.2 "/r" "a" 9 madeDirFs "/r/a"
     [("b", .dir [] 3)] 3 rfl rfl⟩

/-- Inserting a character outside the alphabet, other than the padding
`'='`, anywhere in the input leaves the scanned-and-filtered sextet list
unchanged. -/
theorem filterMap_takeWhile_insert (pre post : List Char) (c : Char)
    (hc : b64Val c = none) (hne : c ≠ '=') :
    List.filterMap b64Val (List.takeWhile (fun x => x != '=') (pre ++ c :: post)) =
      List.filterMap b64Val (List.takeWhile (fun x => x != '=') (pre ++ post)) := by
  induction pre with
  | nil =>
    simp only [List.nil_append]
    rw [takeWhile_cons_keep _ _ _ (by simp [hne]), filterMap_cons_skip _ _ _ hc]
  | cons a pre ih =>
    by_cases hpa : a = '='
    · subst hpa
      rw [List.cons_append, takeWhile_cons_stop _ _ _ (by decide), List.cons_append,
        takeWhile_cons_stop _ _ _ (by decide)]
    · rw [List.cons_append, takeWhile_cons_keep _ _ _ (by simp [hpa]), List.cons_append,
        takeWhile_cons_keep _ _ _ (by simp [hpa])]
      cases hva : b64Val a with
      | none => rw [filterMap_cons_skip _ _ _ hva, filterMap_cons_skip _ _ _ hva, ih]
      | some v => rw [filterMap_cons_val _ _ _ _ hva, filterMap_cons_val _ _ _ _ hva, ih]

/-- Everything after the first padding character is dropped, everything
before it (none of it `'='`) is kept by the scan. -/
theorem filterMap_takeWhile_pad (pre post : List Char) (hpre : '=' ∉ pre) :
    List.filterMap b64Val (List.takeWhile (fun x => x != '=') (pre ++ '=' :: post)) =
      List.filterMap b64Val (List.takeWhile (fun x => x != '=') pre) := by
  have hall : ∀ a ∈ pre, ((fun x => x != '=') a) = true := by
    intro a ha
    simp only [bne_iff_ne, ne_eq]
    intro heq
    exact hpre (heq ▸ ha)
  rw [takeWhile_append_of_all _ _ _ hall, takeWhile_pad_stop, List.append_nil]
  have hkeep : List.takeWhile (fun x => x != '=') pre = pre := by
    have := takeWhile_append_of_all (fun x => x != '=') pre [] hall
    simpa using this
  rw [hkeep]

/-- C9: the claim says `writeFile` with encoding base64 never fails with an
argument error because the decoder silently ignores characters outside
the base64 alphabet.  The never-fails half is true, but the ignoring half
is not universal: the padding `'='` is outside the alphabet (its sextet
value is `none`), yet the decoder does not ignore it — it stops there, so
prepending `'='` to a payload empties the decode instead of leaving it
unchanged. -/
theorem C9_counterexample :
    b64Val '=' = none ∧
    base64DecodeString ⟨'=' :: String.data "YWJj"⟩ ≠ base64DecodeString "YWJj" ∧
    base64DecodeString ⟨'=' :: String.data "YWJj"⟩ = [] :=
  ⟨rfl, by decide, rfl⟩

/-- C9 (amended): `writeFile` with encoding base64 never fails with a
validation error, whatever the data string — the only possible failures
are the path check and the filesystem write — and the decoder is lenient
about every character outside the base64 alphabet other than the padding
`'='`: inserting such a character anywhere leaves the decoded bytes
unchanged, while a `'='` stops decoding, everything after the first one
being dropped; malformed payloads are thus written best-effort rather
than rejected. -/
theorem C9_amended_base64_lenient :
    (∀ (root rel data : String) (append : Bool) (now : Nat) (fs : FNode),
      (writeFileCall root rel data (some "base64") append now fs).1 ≠
        Except.error JsError.zodInvalid) ∧
    (∀ (pre post : List Char) (c : Char), b64Val c = none → c ≠ '=' →
      base64DecodeString ⟨pre ++ c :: post⟩ = base64DecodeString ⟨pre ++ post⟩) ∧
    (∀ (pre post : List Char), '=' ∉ pre →
      base64DecodeString ⟨pre ++ '=' :: post⟩ = base64DecodeString ⟨pre⟩) := by
  refine ⟨?_, ?_, ?_⟩
  · intro root rel data append now fs
    show (writeFileRun root rel data "base64" append now fs).1 ≠ _
    simp only [writeFileRun]
    split
    · next e hsafe =>
      have := safe_error _ _ _ hsafe
      subst this
      simp
    · next abs hsafe =>
      split
      · next e hw =>
        intro hcontra
        simp only [Except.error.injEq] at hcontra
        rw [hcontra] at hw
        exact fsWriteFile_not_zod fs abs _ append now hw
      · next fs0 hw => simp
  · intro pre post c hc hne
    show packSextets
        (List.filterMap b64Val (List.takeWhile (fun x => x != '=') (pre ++ c :: post))) =
      packSextets
        (List.filterMap b64Val (List.takeWhile (fun x => x != '=') (pre ++ post)))
    rw [filterMap_takeWhile_insert pre post c hc hne]
  · intro pre post hpre
    show packSextets
        (List.filterMap b64Val (List.takeWhile (fun x => x != '=') (pre ++ '=' :: post))) =
      packSextets (List.filterMap b64Val (List.takeWhile (fun x => x != '=') pre))
    rw [filterMap_takeWhile_pad pre post hpre]

/-- Witness for C9 (amended): a junk payload passes validation, a stray
'!' in the middle of a base64 string decodes as if absent, and a '='
cuts off everything after it. -/
theorem C9_amended_witness :
    ((writeFileCall "/r" "f.bin" "!!not*base64**" (some "base64") false 7 rootFs).1 ≠
      Except.error JsError.zodInvalid) ∧
    base64DecodeString ⟨['a', 'G'] ++ '!' :: ['V', 's']⟩ =
      base64DecodeString ⟨['a', 'G'] ++ ['V', 's']⟩ ∧
    base64DecodeString ⟨['Y', 'Q'] ++ '=' :: ['x', 'y']⟩ = base64DecodeString ⟨['Y', 'Q']⟩ :=
  ⟨C9_amended_base64_lenient.1 "/r" "f.bin" "!!not*base64**" false 7 rootFs,
   C9_amended_base64_lenient.2.1 ['a', 'G'] ['V', 's'] '!' rfl (by decide),
   C9_amended_base64_lenient.2.2 ['Y', 'Q'] ['x', 'y'] (by decide)⟩

